import Mathlib

/-!
Verification development for the `getlrc` repository.

The definitions below are shallow embeddings of the program's Rust source:
* `src/scanner/clean.rs`  — metadata normalization (`clean_string`,
  `clean_title`, `clean_title_keep_parens`, `normalize_metadata`,
  `get_stripped_title`),
* `src/api/mod.rs`        — search strategy (`get_lyrics_smart`,
  `search_with_fuzzy` classification, `get_lyrics`),
* `src/session.rs`        — persistent session (`check_integrity`,
  `cap_log_history`, save/load round trip),
* `src/cache/mod.rs`      — negative cache (SQLite table semantics),
* `src/cache/signature.rs`— track fingerprinting (JSON serialization and
  SHA-256),
* `src/worker.rs`         — the per-item outcome logic of `process_file`.

Strings are modelled as Lean `String` / `List Char`.  The Rust regexes of
`clean.rs` are embedded as explicit character-list transformations; the
Unicode-aware `\s` class and `to_lowercase` are modelled on their ASCII
subsets (all inputs exercised by the claims are ASCII).  Floating point
similarity scores (`f64`) are modelled as rationals, keeping the exact
threshold comparisons of the source.
-/

namespace Getlrc

/-! ### Character classes used by the regexes in `src/scanner/clean.rs` -/

/-- The `\s` character class (ASCII subset of Unicode white space). -/
def isWsChar (c : Char) : Bool :=
  c = ' ' || c = '\t' || c = '\n' || c = '\r' || c = '\x0b' || c = '\x0c'

/-- The `\d` character class. -/
def isDigitChar (c : Char) : Bool :=
  '0' ≤ c && c ≤ '9'

/-- The `[\.\-\s]` class following the track number in `TRACK_NUMBER_REGEX`. -/
def isTrackSep (c : Char) : Bool :=
  c = '.' || c = '-' || isWsChar c

/-- The `PUNCTUATION_REGEX` class `[_\-&\.]`. -/
def isPunctChar (c : Char) : Bool :=
  c = '_' || c = '-' || c = '&' || c = '.'

/-- `PUNCTUATION_REGEX` replacement by a space. -/
def punctToSpace (c : Char) : Char :=
  if isPunctChar c then ' ' else c

/-- An ASCII uppercase letter (code points 65-90 are A-Z). -/
def isUpperAscii (c : Char) : Bool :=
  decide (65 ≤ c.toNat ∧ c.toNat ≤ 90)

/-- ASCII lowering, modelling Rust `to_lowercase` on the ASCII range
(code point plus 32 maps A-Z onto a-z). -/
def lowerChar (c : Char) : Char :=
  if isUpperAscii c then Char.ofNat (c.toNat + 32) else c

/-! ### `clean_string` (`src/scanner/clean.rs` lines 40-56)

The Rust code applies, in order: remove a leading `^\d+[\.\-\s]+` match,
replace every `[_\-&\.]` by a space, collapse every `\s+` run to a single
space, trim, lowercase. -/

/-- True when `TRACK_NUMBER_REGEX` (`^\d+[\.\-\s]+`) matches at the start:
one or more digits followed by at least one separator. -/
def startsWithTrackNum (l : List Char) : Bool :=
  (!(l.takeWhile isDigitChar).isEmpty) &&
    (match l.dropWhile isDigitChar with
     | c :: _ => isTrackSep c
     | [] => false)

/-- Removing the (greedy, anchored) `TRACK_NUMBER_REGEX` match, if any. -/
def stripTrackNumber (l : List Char) : List Char :=
  if startsWithTrackNum l then (l.dropWhile isDigitChar).dropWhile isTrackSep
  else l

/-- Replace every maximal run of white space by a single space
(`WHITESPACE_REGEX` `\s+` replaced by a single space).  The flag records
whether the previous character belonged to a white-space run. -/
def collapseWsAux : Bool → List Char → List Char
  | _, [] => []
  | prevWs, c :: rest =>
    if isWsChar c then
      if prevWs then collapseWsAux true rest
      else ' ' :: collapseWsAux true rest
    else c :: collapseWsAux false rest

def collapseWs (l : List Char) : List Char := collapseWsAux false l

/-- Rust `str::trim` (ASCII white-space subset). -/
def trimWs (l : List Char) : List Char :=
  ((l.dropWhile isWsChar).reverse.dropWhile isWsChar).reverse

/-- The whole `clean_string` pipeline on character lists. -/
def cleanList (l : List Char) : List Char :=
  (trimWs (collapseWs ((stripTrackNumber l).map punctToSpace))).map lowerChar

/-- `clean_string` from `src/scanner/clean.rs`. -/
def clean_string (s : String) : String :=
  ⟨cleanList s.data⟩

/-! ### The featuring-clause regex (`FEAT_REGEX`)

`(?i)\s*[\(\[]?\s*(feat\.?|ft\.?|featuring|with|w/)\s+[^\)\]]*[\)\]]?`,
removed globally (`replace_all` with the empty string).  After the keyword
the regex requires at least one white-space character; the greedy
`[^\)\]]*` then extends the match to the first `)` or `]` (consuming it if
present) or to the end of the input. -/

/-- Case-insensitive prefix match of `pat` (given lowercase) against the
input; returns the remainder on success. -/
def matchCI : List Char → List Char → Option (List Char)
  | [], l => some l
  | _ :: _, [] => none
  | p :: ps, c :: cs => if lowerChar c = p then matchCI ps cs else none

/-- Match one keyword alternative followed by the mandatory `\s+` look:
returns the remainder after the keyword (white space not yet consumed). -/
def keywordThenWs (pat : List Char) (l : List Char) : Option (List Char) :=
  match matchCI pat l with
  | some rest =>
    match rest with
    | c :: _ => if isWsChar c then some rest else none
    | [] => none
  | none => none

/-- The alternation `(feat\.?|ft\.?|featuring|with|w/)`, each alternative
only viable when followed by white space (the regex continues `\s+`). -/
def matchKeyword (l : List Char) : Option (List Char) :=
  (keywordThenWs ['f','e','a','t','.'] l).orElse fun _ =>
  (keywordThenWs ['f','e','a','t'] l).orElse fun _ =>
  (keywordThenWs ['f','t','.'] l).orElse fun _ =>
  (keywordThenWs ['f','t'] l).orElse fun _ =>
  (keywordThenWs ['f','e','a','t','u','r','i','n','g'] l).orElse fun _ =>
  (keywordThenWs ['w','i','t','h'] l).orElse fun _ =>
  (keywordThenWs ['w','/'] l)

/-- Consume `\s+[^\)\]]*[\)\]]?` after a successful keyword match: the
input starts with white space, everything up to (and including) the first
closing bracket is consumed, or everything to the end if there is none. -/
def consumeClauseTail (l : List Char) : List Char :=
  match l.dropWhile (fun c => !(c = ')' || c = ']')) with
  | _ :: cs => cs
  | [] => []

/-- Try to match the whole featuring-clause regex anchored at the head of
`l`; on success return the suffix after the match.  The leading
`\s*[\(\[]?\s*` is deterministic: consume white space, an optional opening
bracket, more white space. -/
def tryFeat (l : List Char) : Option (List Char) :=
  let l1 := l.dropWhile isWsChar
  let l2 := match l1 with
            | c :: rest => if c = '(' || c = '[' then rest.dropWhile isWsChar else l1
            | [] => l1
  match matchKeyword l2 with
  | some rest => some (consumeClauseTail rest)
  | none => none

/-- `FEAT_REGEX.replace_all(input, "")`: scan left to right, removing each
leftmost match and resuming after it.  Every match consumes at least one
character, so the number of steps is bounded by the input length; the fuel
argument makes the recursion structural and is initialized to that bound
(the `0` case is unreachable). -/
def removeFeatAux : Nat → List Char → List Char
  | _, [] => []
  | 0, l => l
  | fuel + 1, c :: rest =>
    match tryFeat (c :: rest) with
    | some suffix => removeFeatAux fuel suffix
    | none => c :: removeFeatAux fuel rest

def removeFeat (l : List Char) : List Char :=
  removeFeatAux l.length l

/-- A round or square bracket delimiter. -/
def isParenChar (c : Char) : Bool :=
  c = '(' || c = ')' || c = '[' || c = ']'

/-- The bracket replacements `replace(['(', ')'], " ")` and
`replace(['[', ']'], " ")`. -/
def parenToSpace (c : Char) : Char :=
  if isParenChar c then ' ' else c

/-- `clean_title` from `src/scanner/clean.rs` (lines 61-73): remove
featuring clauses, turn brackets into spaces, then `clean_string`. -/
def clean_title (title : String) : String :=
  ⟨cleanList ((removeFeat title.data).map parenToSpace)⟩

/-- `clean_title_keep_parens` from `src/scanner/clean.rs` (lines 77-88).
Its body in the source is the same sequence of operations as
`clean_title`: remove featuring clauses, turn brackets into spaces, then
`clean_string`. -/
def clean_title_keep_parens (title : String) : String :=
  ⟨cleanList ((removeFeat title.data).map parenToSpace)⟩

/-- No two adjacent white-space characters occur in the list. -/
def noAdjWs : List Char → Bool
  | a :: b :: rest => (!(isWsChar a && isWsChar b)) && noAdjWs (b :: rest)
  | _ => true

/-- Some suffix of the list matches the featuring-clause regex (so
`FEAT_REGEX` has a match somewhere in the corresponding string). -/
def hasFeatClause (l : List Char) : Bool :=
  l.tails.any (fun t => (tryFeat t).isSome)

/-- `NormalizedMetadata` from `src/scanner/clean.rs`. -/
structure NormalizedMetadata where
  artist : String
  title : String
  album : String
  original_artist : String
  original_title : String
  deriving Repr, DecidableEq

/-- `normalize_metadata` from `src/scanner/clean.rs` (lines 91-99). -/
def normalize_metadata (artist title album : String) : NormalizedMetadata :=
  { artist := clean_string artist
    title := clean_title_keep_parens title
    album := clean_string album
    original_artist := artist
    original_title := title }

/-- `get_stripped_title` from `src/scanner/clean.rs` (lines 102-104). -/
def get_stripped_title (normalized : NormalizedMetadata) : String :=
  clean_title normalized.original_title

/-! ### The catalog client and the search strategy (`src/api/mod.rs`)

`LyricsResponse` is the deserialized catalog record (`src/api/types.rs`).
The `f64` similarity values and thresholds are modelled as rationals; the
network is abstracted: a query step is a function from the normalized
metadata sent to the catalog to the `SearchResult` classification the
source computes for the response (lines 124-189 of `src/api/mod.rs`), and
`get_lyrics_smart` is additionally instrumented to record the list of
queries it issues, in order. -/

structure LyricsResponse where
  artist_name : String
  track_name : String
  synced_lyrics : Option String
  plain_lyrics : Option String
  deriving Repr, DecidableEq

def SIMILARITY_THRESHOLD_AUTO : ℚ := 85 / 100

def SIMILARITY_THRESHOLD_POTENTIAL : ℚ := 6 / 10

/-- `SearchResult` from `src/api/mod.rs`. -/
inductive SearchResult where
  | Found : LyricsResponse → SearchResult
  | PotentialMatch : LyricsResponse → ℚ → SearchResult
  | NotFound : SearchResult
  deriving Repr, DecidableEq

/-- The catalog's HTTP answer to one `/get` request, as the source
distinguishes it: 200 with a record, 404, or any other status (an error). -/
inductive CatalogAnswer where
  | ok : LyricsResponse → CatalogAnswer
  | missing : CatalogAnswer
  | otherStatus : Nat → CatalogAnswer
  deriving Repr, DecidableEq

/-- ASCII `to_lowercase` on strings (the candidate's reported fields are
lower-cased before scoring). -/
def lowerString (s : String) : String :=
  ⟨s.data.map lowerChar⟩

/-- The pure core of `search_with_fuzzy` (`src/api/mod.rs` lines 124-189):
given the similarity function (`strsim::jaro_winkler`, abstracted), the
query that was sent and the catalog's answer, produce the classified
result, or an error for an unexpected status code.  On a 200 answer the
source averages artist and title similarity and compares the average
against the two thresholds with `>=`. -/
def search_with_fuzzy (sim : String → String → ℚ)
    (normalized : NormalizedMetadata) (answer : CatalogAnswer) :
    Except Nat SearchResult :=
  match answer with
  | .ok lyrics =>
    let artist_similarity := sim normalized.artist (lowerString lyrics.artist_name)
    let title_similarity := sim normalized.title (lowerString lyrics.track_name)
    let avg_similarity := (artist_similarity + title_similarity) / 2
    if avg_similarity ≥ SIMILARITY_THRESHOLD_AUTO then
      .ok (.Found lyrics)
    else if avg_similarity ≥ SIMILARITY_THRESHOLD_POTENTIAL then
      .ok (.PotentialMatch lyrics avg_similarity)
    else
      .ok .NotFound
  | .missing => .ok .NotFound
  | .otherStatus code => .error code

/-- `Track` from `src/scanner/metadata.rs` (the fields used by the API
client and the worker). -/
structure Track where
  artist : String
  title : String
  album : String
  duration_secs : Nat
  deriving Repr, DecidableEq

/-- `get_lyrics_smart` (`src/api/mod.rs` lines 42-121), instrumented with
the ordered list of queries issued to the catalog.  `query` abstracts one
`search_with_fuzzy` call, i.e. the composite of the HTTP request and the
classification above. -/
def get_lyrics_smart (query : NormalizedMetadata → SearchResult)
    (track : Track) : SearchResult × List NormalizedMetadata :=
  let normalized := normalize_metadata track.artist track.title track.album
  match query normalized with
  | .Found lyrics => (.Found lyrics, [normalized])
  | .PotentialMatch lyrics similarity =>
      (.PotentialMatch lyrics similarity, [normalized])
  | .NotFound =>
    let stripped_title := get_stripped_title normalized
    if stripped_title ≠ normalized.title then
      let stripped_normalized : NormalizedMetadata :=
        { artist := normalized.artist
          title := stripped_title
          album := normalized.album
          original_artist := normalized.original_artist
          original_title := normalized.original_title }
      match query stripped_normalized with
      | .Found lyrics => (.Found lyrics, [normalized, stripped_normalized])
      | .PotentialMatch lyrics similarity =>
          (.PotentialMatch lyrics similarity, [normalized, stripped_normalized])
      | .NotFound => (.NotFound, [normalized, stripped_normalized])
    else
      (.NotFound, [normalized])

/-- `get_lyrics` (`src/api/mod.rs` lines 193-200): collapse `Found` and
`PotentialMatch` to `Some(lyrics)`, `NotFound` to `None`. -/
def get_lyrics (query : NormalizedMetadata → SearchResult)
    (track : Track) : Option LyricsResponse :=
  match (get_lyrics_smart query track).1 with
  | .Found lyrics => some lyrics
  | .PotentialMatch lyrics _ => some lyrics
  | .NotFound => none

/-! ### Persistent session (`src/session.rs`)

File paths are modelled as strings; the presence of a path on disk is
abstracted as a predicate `fileExists`.  `save` serializes a clone with
capped log history and writes it atomically; `load` parses the file back.
Since `serde_json` round-trips every field of `PersistentSession`
verbatim, the serialized file is modelled by the session value it encodes:
`save` produces the stored document, `load` returns it. -/

def MAX_LOG_HISTORY : Nat := 500

def INTEGRITY_CHECK_SAMPLE_SIZE : Nat := 10

def INTEGRITY_CHECK_THRESHOLD : Nat := 5

/-- `StatusType` from `src/session.rs`. -/
inductive StatusType where
  | Downloaded
  | Cached
  | Existing
  | NotFound
  | Error
  deriving Repr, DecidableEq

/-- `LogEntry` from `src/session.rs`. -/
structure LogEntry where
  filename : String
  status : StatusType
  deriving Repr, DecidableEq

/-- `PersistentSession` from `src/session.rs`. -/
structure PersistentSession where
  root_path : String
  pending_files : List String
  downloaded_count : Nat
  cached_count : Nat
  existing_count : Nat
  failed_count : Nat
  log_history : List LogEntry
  deriving Repr, DecidableEq

namespace PersistentSession

/-- `cap_log_history` (`src/session.rs` lines 188-194): drop the oldest
entries so that at most `MAX_LOG_HISTORY` remain. -/
def cap_log_history (s : PersistentSession) : PersistentSession :=
  if s.log_history.length > MAX_LOG_HISTORY then
    { s with log_history := s.log_history.drop (s.log_history.length - MAX_LOG_HISTORY) }
  else s

/-- `save` (`src/session.rs` lines 57-90): the document written to disk is
the clone with capped log history. -/
def save (s : PersistentSession) : PersistentSession :=
  cap_log_history s

/-- `load` (`src/session.rs` lines 93-108): deserialize the stored
document. -/
def load (stored : PersistentSession) : PersistentSession :=
  stored

/-- The number of files of the integrity-check sample (the first
`min(10, len)` pending files) that are missing from disk. -/
def missingCount (fileExists : String → Bool) (s : PersistentSession) : Nat :=
  let sample_size := min INTEGRITY_CHECK_SAMPLE_SIZE s.pending_files.length
  ((s.pending_files.take sample_size).filter (fun p => !(fileExists p))).length

/-- `check_integrity` (`src/session.rs` lines 135-174): a session with no
pending files is invalid; otherwise the session is valid exactly when the
number of missing sampled files is below `INTEGRITY_CHECK_THRESHOLD`. -/
def check_integrity (fileExists : String → Bool) (s : PersistentSession) : Bool :=
  if s.pending_files.isEmpty then false
  else missingCount fileExists s < INTEGRITY_CHECK_THRESHOLD

end PersistentSession

/-! ### Negative cache (`src/cache/mod.rs`)

The SQLite table `negative_cache(signature TEXT PRIMARY KEY, timestamp
INTEGER NOT NULL)` is modelled as an association list keyed by signature.
`open` creates the table if absent (a fresh store is empty);
`is_cached` is `SELECT 1 ... WHERE signature = ?1` (existence);
`add` is `INSERT OR REPLACE` with the current UNIX timestamp, i.e. an
upsert that replaces any row with the same primary key.  The ambient clock
is passed explicitly. -/

structure NegativeCache where
  entries : List (String × Int)
  deriving Repr, DecidableEq

namespace NegativeCache

/-- A freshly opened store (schema just created, no rows). -/
def openFresh : NegativeCache := ⟨[]⟩

/-- `is_cached` (`src/cache/mod.rs` lines 29-36). -/
def is_cached (c : NegativeCache) (signature : String) : Bool :=
  c.entries.any (fun e => e.1 = signature)

/-- `add` (`src/cache/mod.rs` lines 39-50): `INSERT OR REPLACE`. -/
def add (c : NegativeCache) (timestamp : Int) (signature : String) : NegativeCache :=
  ⟨(signature, timestamp) :: c.entries.filter (fun e => e.1 ≠ signature)⟩

end NegativeCache

/-! ### Track fingerprint (`src/cache/signature.rs`)

`generate_hash` serializes the struct with `serde_json::to_vec` (field
order as declared: artist, title, album, duration_sec; strings escaped as
serde_json escapes them, `None` as `null`) and hex-encodes the SHA-256
digest of those UTF-8 bytes.  Both steps are embedded executably below. -/

/-- Lowercase hexadecimal digit. -/
def hexDigitChar (n : Nat) : Char :=
  if n < 10 then Char.ofNat (48 + n) else Char.ofNat (87 + n)

/-- serde_json string escaping of one character: `"` and `\` get a
backslash; BS, TAB, LF, FF, CR use their short forms; other control
characters below 0x20 become `\u00XX` (lowercase hex); everything else is
emitted verbatim. -/
def jsonEscapeChar (c : Char) : List Char :=
  if c = '\"' then ['\\', '\"']
  else if c = '\\' then ['\\', '\\']
  else if c = '\x08' then ['\\', 'b']
  else if c = '\t' then ['\\', 't']
  else if c = '\n' then ['\\', 'n']
  else if c = '\x0c' then ['\\', 'f']
  else if c = '\r' then ['\\', 'r']
  else if c.toNat < 32 then
    ['\\', 'u', '0', '0', hexDigitChar (c.toNat / 16), hexDigitChar (c.toNat % 16)]
  else [c]

/-- A JSON string literal, serde_json style. -/
def jsonString (s : String) : List Char :=
  '\"' :: (s.data.flatMap jsonEscapeChar) ++ ['\"']

/-- UTF-8 encoding of one scalar value as a byte list. -/
def utf8EncodeChar (c : Char) : List Nat :=
  let n := c.toNat
  if n < 128 then [n]
  else if n < 2048 then
    [192 + n / 64, 128 + n % 64]
  else if n < 65536 then
    [224 + n / 4096, 128 + (n / 64) % 64, 128 + n % 64]
  else
    [240 + n / 262144, 128 + (n / 4096) % 64, 128 + (n / 64) % 64, 128 + n % 64]

def utf8Encode (l : List Char) : List Nat :=
  l.flatMap utf8EncodeChar

/-- `TrackSignature` from `src/cache/signature.rs` (`duration_sec` is a
`u32`; only values below `2^32` occur). -/
structure TrackSignature where
  artist : String
  title : String
  album : Option String
  duration_sec : Nat
  deriving Repr, DecidableEq

/-- `serde_json::to_vec` of a `TrackSignature`, as a character list
(fields in declaration order, no spaces, `None` as `null`). -/
def TrackSignature.serializeJson (s : TrackSignature) : List Char :=
  ['\x7b'] ++
  ('\"' :: ('a' :: 'r' :: 't' :: 'i' :: 's' :: 't' :: []) ++ ['\"', ':']) ++ jsonString s.artist ++
  (',' :: '\"' :: ('t' :: 'i' :: 't' :: 'l' :: 'e' :: []) ++ ['\"', ':']) ++ jsonString s.title ++
  (',' :: '\"' :: ('a' :: 'l' :: 'b' :: 'u' :: 'm' :: []) ++ ['\"', ':']) ++
  (match s.album with
   | some a => jsonString a
   | none => ['n', 'u', 'l', 'l']) ++
  (',' :: '\"' :: ('d' :: 'u' :: 'r' :: 'a' :: 't' :: 'i' :: 'o' :: 'n' :: '_' :: 's' :: 'e' :: 'c' :: []) ++ ['\"', ':']) ++
  (Nat.repr s.duration_sec).data ++
  ['\x7d']

/-! ### SHA-256 (the `sha2` crate's `Sha256`), on byte lists

Words are `Nat`s kept below `2^32` by explicit reduction. -/

def mod32 (n : Nat) : Nat := n % 4294967296

def rotr32 (n x : Nat) : Nat := x / 2 ^ n + x % 2 ^ n * 2 ^ (32 - n)

def not32 (x : Nat) : Nat := 4294967295 - x % 4294967296

def shaCh (x y z : Nat) : Nat := (x &&& y) ^^^ (not32 x &&& z)

def shaMaj (x y z : Nat) : Nat := (x &&& y) ^^^ (x &&& z) ^^^ (y &&& z)

def bigSigma0 (x : Nat) : Nat := rotr32 2 x ^^^ rotr32 13 x ^^^ rotr32 22 x

def bigSigma1 (x : Nat) : Nat := rotr32 6 x ^^^ rotr32 11 x ^^^ rotr32 25 x

def smallSigma0 (x : Nat) : Nat := rotr32 7 x ^^^ rotr32 18 x ^^^ (x >>> 3)

def smallSigma1 (x : Nat) : Nat := rotr32 17 x ^^^ rotr32 19 x ^^^ (x >>> 10)

def shaK : List Nat :=
  [1116352408, 1899447441, 3049323471, 3921009573, 961987163,
   1508970993, 2453635748, 2870763221, 3624381080, 310598401,
   607225278, 1426881987, 1925078388, 2162078206, 2614888103,
   3248222580, 3835390401, 4022224774, 264347078, 604807628,
   770255983, 1249150122, 1555081692, 1996064986, 2554220882,
   2821834349, 2952996808, 3210313671, 3336571891, 3584528711,
   113926993, 338241895, 666307205, 773529912, 1294757372,
   1396182291, 1695183700, 1986661051, 2177026350, 2456956037,
   2730485921, 2820302411, 3259730800, 3345764771, 3516065817,
   3600352804, 4094571909, 275423344, 430227734, 506948616,
   659060556, 883997877, 958139571, 1322822218, 1537002063,
   1747873779, 1955562222, 2024104815, 2227730452, 2361852424,
   2428436474, 2756734187, 3204031479, 3329325298]

def shaH0 : List Nat :=
  [1779033703, 3144134277, 1013904242, 2773480762,
   1359893119, 2600822924, 528734635, 1541459225]

/-- Big-endian bytes of `n`, `k` bytes wide. -/
def beBytes (k n : Nat) : List Nat :=
  match k with
  | 0 => []
  | k + 1 => n / 2 ^ (8 * k) % 256 :: beBytes k n

/-- SHA-256 padding: append `0x80`, zeros to 56 mod 64, and the bit length
as 8 big-endian bytes. -/
def shaPad (msg : List Nat) : List Nat :=
  let l := msg.length
  msg ++ 128 :: List.replicate ((64 - (l + 9) % 64) % 64) 0 ++ beBytes 8 (8 * l)

/-- Group four bytes big-endian into one 32-bit word. -/
def bytesToWords : List Nat → List Nat
  | b0 :: b1 :: b2 :: b3 :: rest =>
      (b0 * 16777216 + b1 * 65536 + b2 * 256 + b3) :: bytesToWords rest
  | _ => []

/-- Split the padded message into 64-byte blocks.  The fuel (initialized
to the list length) makes the recursion structural; each step consumes 64
bytes, so it never runs out. -/
def toBlocksAux : Nat → List Nat → List (List Nat)
  | _, [] => []
  | 0, _ => []
  | fuel + 1, l => l.take 64 :: toBlocksAux fuel (l.drop 64)

def toBlocks (l : List Nat) : List (List Nat) :=
  toBlocksAux l.length l

/-- Extend the 16 block words to the 64-entry message schedule. -/
def extendSchedule (w : List Nat) : List Nat :=
  (List.range 48).foldl
    (fun acc _ =>
      let n := acc.length
      acc ++ [mod32 (smallSigma1 (acc.getD (n - 2) 0) + acc.getD (n - 7) 0 +
        smallSigma0 (acc.getD (n - 15) 0) + acc.getD (n - 16) 0)])
    w

/-- One compression round.  The state is the eight working variables. -/
def shaRound (st : List Nat) (kw : Nat × Nat) : List Nat :=
  match st with
  | [a, b, c, d, e, f, g, h] =>
    let t1 := mod32 (h + bigSigma1 e + shaCh e f g + kw.1 + kw.2)
    let t2 := mod32 (bigSigma0 a + shaMaj a b c)
    [mod32 (t1 + t2), a, b, c, mod32 (d + t1), e, f, g]
  | other => other

/-- Compress one 64-byte block into the running hash value. -/
def shaCompress (hv : List Nat) (block : List Nat) : List Nat :=
  let w := extendSchedule (bytesToWords block)
  let st := (shaK.zip w).foldl shaRound hv
  (hv.zip st).map (fun p => mod32 (p.1 + p.2))

def sha256Bytes (msg : List Nat) : List Nat :=
  ((toBlocks (shaPad msg)).foldl shaCompress shaH0).flatMap (beBytes 4)

/-- The `{:x}` rendering of the digest: two lowercase hex digits per
byte. -/
def bytesToHexChars (l : List Nat) : List Char :=
  l.flatMap (fun b => [hexDigitChar (b / 16 % 16), hexDigitChar (b % 16)])

/-- `TrackSignature::generate_hash` (`src/cache/signature.rs` lines
12-23): hex-encoded SHA-256 of the JSON serialization. -/
def TrackSignature.generate_hash (s : TrackSignature) : String :=
  ⟨bytesToHexChars (sha256Bytes (utf8Encode s.serializeJson))⟩

/-! ### The per-item outcome logic of the worker (`src/worker.rs`)

After the cache check and the rate limiter, `process_file` (lines
391-456) branches on the result of `get_lyrics` and on whether the `.lrc`
sidecar write succeeds.  The model records the three externally visible
effects of that branching: whether the fingerprint was added to the
negative cache, the status logged to the session, and the synced body
written to the sidecar file (if any). -/

structure ItemOutcome where
  cacheAdded : Bool
  status : StatusType
  written : Option String
  deriving Repr, DecidableEq

/-- The fetch-and-record part of `process_file`: `fetched` is the result
of `client.get_lyrics(&track)` (`Err` for transport errors), `writeOk`
tells whether `write_lrc_file` succeeds when attempted. -/
def process_file_outcome (fetched : Except String (Option LyricsResponse))
    (writeOk : Bool) : ItemOutcome :=
  match fetched with
  | .ok (some lyrics) =>
    match lyrics.synced_lyrics with
    | some synced =>
      if writeOk then
        { cacheAdded := false, status := .Downloaded, written := some synced }
      else
        { cacheAdded := false, status := .Error, written := none }
    | none =>
      { cacheAdded := true, status := .NotFound, written := none }
  | .ok none =>
      { cacheAdded := true, status := .NotFound, written := none }
  | .error _ =>
      { cacheAdded := false, status := .Error, written := none }

/-! ### Concrete sample values used by witnesses -/

def lyricsSample : LyricsResponse :=
  { artist_name := "50 Cent"
    track_name := "P.I.M.P."
    synced_lyrics := some "[00:12.00] sample line"
    plain_lyrics := none }

def trackSample : Track :=
  { artist := "50 Cent"
    title := "P.I.M.P. (feat. Snoop Dogg)"
    album := "Get Rich or Die Tryin"
    duration_secs := 249 }

def sessionEmpty : PersistentSession :=
  { root_path := "/music"
    pending_files := []
    downloaded_count := 0
    cached_count := 0
    existing_count := 0
    failed_count := 0
    log_history := [] }

def sessionOne : PersistentSession :=
  { root_path := "/music"
    pending_files := ["/music/a.mp3"]
    downloaded_count := 1
    cached_count := 2
    existing_count := 3
    failed_count := 4
    log_history := [{ filename := "a.mp3", status := .Downloaded }] }

/-! ## Theorems

The embedding reproduces the expected outputs of the unit tests in
`src/scanner/clean.rs` (`test_clean_string`, `test_clean_title`,
`test_clean_title_keep_parens`). -/

theorem clean_matches_source_tests :
    clean_string ("20. Song Name") = ("song name") ∧
    clean_string ("Artist_Name-Here") = ("artist name here") ∧
    clean_string ("  Extra   Spaces  ") = ("extra spaces") ∧
    clean_title ("P.I.M.P. (feat. Snoop Dogg)") = ("p i m p") ∧
    clean_title ("Song Name (Remix)") = ("song name remix") ∧
    clean_title ("Track ft. Artist") = ("track") ∧
    clean_title ("Song (Live)") = ("song live") ∧
    clean_title_keep_parens ("P.I.M.P. (Remix)") = ("p i m p remix") ∧
    clean_title_keep_parens ("Song (feat. Artist)") = ("song") ∧
    clean_title_keep_parens ("Track (Acoustic)") = ("track acoustic") := by
  decide

/-! ### Character-level lemmas for the normalization pipeline -/

theorem toNat_ofNat_of_valid {n : Nat} (h : n.isValidChar) :
    (Char.ofNat n).toNat = n := by
  unfold Char.ofNat
  rw [dif_pos h]
  rfl

theorem lowerChar_eq_of_not_upper {c : Char} (h : isUpperAscii c = false) :
    lowerChar c = c := by
  simp [lowerChar, h]

theorem lowerChar_toNat_of_upper {c : Char} (h : isUpperAscii c = true) :
    (lowerChar c).toNat = c.toNat + 32 := by
  have hr : 65 ≤ c.toNat ∧ c.toNat ≤ 90 := of_decide_eq_true h
  rw [lowerChar, if_pos h]
  exact toNat_ofNat_of_valid (Or.inl (by omega))

theorem toNat_lowerChar_of_upper {c : Char} (h : isUpperAscii c = true) :
    97 ≤ (lowerChar c).toNat ∧ (lowerChar c).toNat ≤ 122 := by
  have hr : 65 ≤ c.toNat ∧ c.toNat ≤ 90 := of_decide_eq_true h
  rw [lowerChar_toNat_of_upper h]
  omega

theorem isWsChar_eq_false_of_toNat {c : Char}
    (h : c.toNat ≠ 32 ∧ c.toNat ≠ 9 ∧ c.toNat ≠ 10 ∧ c.toNat ≠ 13 ∧
      c.toNat ≠ 11 ∧ c.toNat ≠ 12) : isWsChar c = false := by
  simp only [isWsChar, Bool.or_eq_false_iff, decide_eq_false_iff_not]
  exact ⟨⟨⟨⟨⟨fun hc => h.1 ((congrArg Char.toNat hc).trans (by decide)),
    fun hc => h.2.1 ((congrArg Char.toNat hc).trans (by decide))⟩,
    fun hc => h.2.2.1 ((congrArg Char.toNat hc).trans (by decide))⟩,
    fun hc => h.2.2.2.1 ((congrArg Char.toNat hc).trans (by decide))⟩,
    fun hc => h.2.2.2.2.1 ((congrArg Char.toNat hc).trans (by decide))⟩,
    fun hc => h.2.2.2.2.2 ((congrArg Char.toNat hc).trans (by decide))⟩

theorem isPunctChar_eq_false_of_toNat {c : Char}
    (h : c.toNat ≠ 95 ∧ c.toNat ≠ 45 ∧ c.toNat ≠ 38 ∧ c.toNat ≠ 46) :
    isPunctChar c = false := by
  simp only [isPunctChar, Bool.or_eq_false_iff, decide_eq_false_iff_not]
  exact ⟨⟨⟨fun hc => h.1 ((congrArg Char.toNat hc).trans (by decide)),
    fun hc => h.2.1 ((congrArg Char.toNat hc).trans (by decide))⟩,
    fun hc => h.2.2.1 ((congrArg Char.toNat hc).trans (by decide))⟩,
    fun hc => h.2.2.2 ((congrArg Char.toNat hc).trans (by decide))⟩

theorem isParenChar_eq_false_of_toNat {c : Char}
    (h : c.toNat ≠ 40 ∧ c.toNat ≠ 41 ∧ c.toNat ≠ 91 ∧ c.toNat ≠ 93) :
    isParenChar c = false := by
  simp only [isParenChar, Bool.or_eq_false_iff, decide_eq_false_iff_not]
  exact ⟨⟨⟨fun hc => h.1 ((congrArg Char.toNat hc).trans (by decide)),
    fun hc => h.2.1 ((congrArg Char.toNat hc).trans (by decide))⟩,
    fun hc => h.2.2.1 ((congrArg Char.toNat hc).trans (by decide))⟩,
    fun hc => h.2.2.2 ((congrArg Char.toNat hc).trans (by decide))⟩

theorem isWsChar_lowerChar {c : Char} (h : isWsChar c = false) :
    isWsChar (lowerChar c) = false := by
  by_cases hu : isUpperAscii c = true
  · have hr := toNat_lowerChar_of_upper hu
    exact isWsChar_eq_false_of_toNat (by omega)
  · rw [lowerChar_eq_of_not_upper (Bool.not_eq_true _ ▸ hu)]
    exact h

theorem isWsChar_lowerChar_rev {c : Char} (h : isWsChar (lowerChar c) = true) :
    isWsChar c = true := by
  by_cases hc : isWsChar c = true
  · exact hc
  · rw [isWsChar_lowerChar (Bool.not_eq_true _ ▸ hc)] at h
    exact absurd h (by simp)

theorem isPunctChar_lowerChar {c : Char} (h : isPunctChar c = false) :
    isPunctChar (lowerChar c) = false := by
  by_cases hu : isUpperAscii c = true
  · have hr := toNat_lowerChar_of_upper hu
    exact isPunctChar_eq_false_of_toNat (by omega)
  · rw [lowerChar_eq_of_not_upper (Bool.not_eq_true _ ▸ hu)]
    exact h

theorem isParenChar_lowerChar {c : Char} (h : isParenChar c = false) :
    isParenChar (lowerChar c) = false := by
  by_cases hu : isUpperAscii c = true
  · have hr := toNat_lowerChar_of_upper hu
    exact isParenChar_eq_false_of_toNat (by omega)
  · rw [lowerChar_eq_of_not_upper (Bool.not_eq_true _ ▸ hu)]
    exact h

theorem isUpperAscii_lowerChar (c : Char) : isUpperAscii (lowerChar c) = false := by
  by_cases hu : isUpperAscii c = true
  · have hr := toNat_lowerChar_of_upper hu
    simp only [isUpperAscii, decide_eq_false_iff_not]
    omega
  · rw [lowerChar_eq_of_not_upper (Bool.not_eq_true _ ▸ hu)]
    exact Bool.not_eq_true _ ▸ hu

theorem lowerChar_idem (c : Char) : lowerChar (lowerChar c) = lowerChar c :=
  lowerChar_eq_of_not_upper (isUpperAscii_lowerChar c)

theorem punctToSpace_eq_of_not {c : Char} (h : isPunctChar c = false) :
    punctToSpace c = c := by
  simp [punctToSpace, h]

theorem isPunctChar_punctToSpace (c : Char) : isPunctChar (punctToSpace c) = false := by
  cases hb : isPunctChar c with
  | true => rw [punctToSpace, if_pos hb]; decide
  | false => rw [punctToSpace_eq_of_not hb]; exact hb

theorem isParenChar_punctToSpace {c : Char} (h : isParenChar c = false) :
    isParenChar (punctToSpace c) = false := by
  cases hb : isPunctChar c with
  | true => rw [punctToSpace, if_pos hb]; decide
  | false => rw [punctToSpace_eq_of_not hb]; exact h

theorem isParenChar_parenToSpace (c : Char) : isParenChar (parenToSpace c) = false := by
  cases hb : isParenChar c with
  | true => rw [parenToSpace, if_pos hb]; decide
  | false => rw [parenToSpace]; rw [if_neg (by simp [hb])]; exact hb

theorem lowerChar_id_of_not_upper {c : Char} (h : isUpperAscii c = false) :
    lowerChar c = c := lowerChar_eq_of_not_upper h

/-! ### List-level lemmas for the normalization pipeline -/

theorem map_id_of_fixed {f : Char → Char} :
    ∀ {l : List Char}, (∀ c ∈ l, f c = c) → l.map f = l := by
  intro l h
  rw [List.map_congr_left h, List.map_id']

theorem mem_dropWhileCh {p : Char → Bool} {l : List Char} {c : Char}
    (h : c ∈ l.dropWhile p) : c ∈ l :=
  (List.dropWhile_sublist (l := l) (p := p)).mem h

theorem dropWhile_head_false {p : Char → Bool} :
    ∀ {l : List Char} {c : Char}, (l.dropWhile p).head? = some c → p c = false := by
  intro l
  induction l with
  | nil => intro c h; simp at h
  | cons a rest ih =>
    intro c h
    by_cases hp : p a = true
    · rw [List.dropWhile_cons, if_pos hp] at h
      exact ih h
    · rw [List.dropWhile_cons, if_neg hp] at h
      cases h
      exact Bool.not_eq_true _ ▸ hp

theorem dropWhile_id_of_head {p : Char → Bool} {l : List Char}
    (h : ∀ c, l.head? = some c → p c = false) : l.dropWhile p = l := by
  cases l with
  | nil => rfl
  | cons a rest =>
    rw [List.dropWhile_cons, if_neg]
    simp [h a rfl]

theorem getLast?_dropWhile {p : Char → Bool} :
    ∀ {l : List Char}, l.dropWhile p ≠ [] → (l.dropWhile p).getLast? = l.getLast? := by
  intro l
  induction l with
  | nil => intro h; exact absurd rfl h
  | cons a rest ih =>
    intro h
    by_cases hp : p a = true
    · rw [List.dropWhile_cons, if_pos hp] at h ⊢
      rw [ih h]
      have hrest : rest ≠ [] := by
        intro he
        rw [he] at h
        exact h rfl
      cases rest with
      | nil => exact absurd rfl hrest
      | cons b m => exact (List.getLast?_cons_cons ..).symm
    · rw [List.dropWhile_cons, if_neg hp]

theorem noAdjWs_tail : ∀ {c : Char} {l : List Char},
    noAdjWs (c :: l) = true → noAdjWs l = true := by
  intro c l h
  cases l with
  | nil => rfl
  | cons d rest =>
    rw [noAdjWs, Bool.and_eq_true] at h
    exact h.2

theorem noAdjWs_pair {c d : Char} {l : List Char}
    (h : noAdjWs (c :: d :: l) = true) : (isWsChar c && isWsChar d) = false := by
  rw [noAdjWs, Bool.and_eq_true] at h
  have := h.1
  cases hb : (isWsChar c && isWsChar d) with
  | false => rfl
  | true => rw [hb] at this; exact absurd this (by decide)

theorem noAdjWs_cons_of {c : Char} {l : List Char} (hl : noAdjWs l = true)
    (hh : ∀ d, l.head? = some d → (isWsChar c && isWsChar d) = false) :
    noAdjWs (c :: l) = true := by
  cases l with
  | nil => rfl
  | cons d rest =>
    rw [noAdjWs, Bool.and_eq_true]
    exact ⟨by rw [hh d rfl]; rfl, hl⟩

theorem noAdjWs_dropWhile {p : Char → Bool} :
    ∀ {l : List Char}, noAdjWs l = true → noAdjWs (l.dropWhile p) = true := by
  intro l
  induction l with
  | nil => intro h; exact h
  | cons a rest ih =>
    intro h
    by_cases hp : p a = true
    · rw [List.dropWhile_cons, if_pos hp]
      exact ih (noAdjWs_tail h)
    · rw [List.dropWhile_cons, if_neg hp]
      exact h

theorem noAdjWs_append_single {l : List Char} {c : Char} :
    noAdjWs l = true →
    (∀ d, l.getLast? = some d → (isWsChar d && isWsChar c) = false) →
    noAdjWs (l ++ [c]) = true := by
  induction l with
  | nil => intro _ _; rfl
  | cons a rest ih =>
    intro h hl
    cases rest with
    | nil =>
      rw [List.cons_append, List.nil_append, noAdjWs, Bool.and_eq_true]
      exact ⟨by rw [hl a rfl]; rfl, rfl⟩
    | cons b m =>
      have step : noAdjWs (a :: b :: (m ++ [c])) =
          ((!(isWsChar a && isWsChar b)) && noAdjWs (b :: (m ++ [c]))) := rfl
      rw [List.cons_append, List.cons_append, step, Bool.and_eq_true]
      constructor
      · rw [noAdjWs_pair h]
        rfl
      · rw [← List.cons_append]
        exact ih (noAdjWs_tail h) (fun d hd => hl d ((List.getLast?_cons_cons ..).symm ▸ hd))

theorem noAdjWs_reverse : ∀ {l : List Char},
    noAdjWs l = true → noAdjWs l.reverse = true := by
  intro l
  induction l with
  | nil => intro h; exact h
  | cons a rest ih =>
    intro h
    rw [List.reverse_cons]
    refine noAdjWs_append_single (ih (noAdjWs_tail h)) ?_
    intro d hd
    rw [List.getLast?_reverse] at hd
    cases rest with
    | nil => simp at hd
    | cons b m =>
      cases hd
      rw [Bool.and_comm]
      exact noAdjWs_pair h

theorem noAdjWs_map_lower : ∀ {l : List Char},
    noAdjWs l = true → noAdjWs (l.map lowerChar) = true := by
  intro l
  induction l with
  | nil => intro h; exact h
  | cons a rest ih =>
    intro h
    cases rest with
    | nil => rfl
    | cons b m =>
      rw [List.map_cons, List.map_cons, noAdjWs, Bool.and_eq_true]
      constructor
      · have hp := noAdjWs_pair h
        cases hwa : isWsChar a with
        | true =>
          have hwb : isWsChar b = false := by
            rw [hwa] at hp
            simpa using hp
          rw [isWsChar_lowerChar hwb]
          simp
        | false =>
          rw [isWsChar_lowerChar hwa]
          simp
      · rw [← List.map_cons]
        exact ih (noAdjWs_tail h)

theorem collapseWsAux_nil (b : Bool) : collapseWsAux b [] = [] := rfl

theorem ite_true_bool {α : Sort _} (x y : α) :
    (if (true : Bool) = true then x else y) = x := rfl

theorem ite_false_bool {α : Sort _} (x y : α) :
    (if (false : Bool) = true then x else y) = y := rfl

theorem collapseWsAux_cons (b : Bool) (a : Char) (rest : List Char) :
    collapseWsAux b (a :: rest) =
      if isWsChar a then
        (if b then collapseWsAux true rest else ' ' :: collapseWsAux true rest)
      else a :: collapseWsAux false rest := rfl

theorem collapseWsAux_mem : ∀ {l : List Char} {b : Bool} {c : Char},
    c ∈ collapseWsAux b l → c ∈ l ∨ c = ' ' := by
  intro l
  induction l with
  | nil => intro b c h; rw [collapseWsAux_nil] at h; simp at h
  | cons a rest ih =>
    intro b c h
    rw [collapseWsAux_cons] at h
    by_cases hw : isWsChar a = true
    · rw [if_pos hw] at h
      cases b with
      | true =>
        rw [ite_true_bool] at h
        rcases ih h with h1 | h1
        · exact Or.inl (List.mem_cons_of_mem _ h1)
        · exact Or.inr h1
      | false =>
        rw [ite_false_bool, List.mem_cons] at h
        rcases h with h1 | h1
        · exact Or.inr h1
        · rcases ih h1 with h2 | h2
          · exact Or.inl (List.mem_cons_of_mem _ h2)
          · exact Or.inr h2
    · rw [if_neg hw, List.mem_cons] at h
      rcases h with h1 | h1
      · exact Or.inl (h1 ▸ List.mem_cons_self _ _)
      · rcases ih h1 with h2 | h2
        · exact Or.inl (List.mem_cons_of_mem _ h2)
        · exact Or.inr h2

theorem collapseWsAux_ws_space : ∀ {l : List Char} {b : Bool} {c : Char},
    c ∈ collapseWsAux b l → isWsChar c = true → c = ' ' := by
  intro l
  induction l with
  | nil => intro b c h _; rw [collapseWsAux_nil] at h; simp at h
  | cons a rest ih =>
    intro b c h hw
    rw [collapseWsAux_cons] at h
    by_cases hwa : isWsChar a = true
    · rw [if_pos hwa] at h
      cases b with
      | true =>
        rw [ite_true_bool] at h
        exact ih h hw
      | false =>
        rw [ite_false_bool, List.mem_cons] at h
        rcases h with h1 | h1
        · exact h1
        · exact ih h1 hw
    · rw [if_neg hwa, List.mem_cons] at h
      rcases h with h1 | h1
      · rw [h1] at hw; exact absurd hw (by simp [hwa])
      · exact ih h1 hw

theorem collapseWsAux_true_head : ∀ {l : List Char} {c : Char},
    (collapseWsAux true l).head? = some c → isWsChar c = false := by
  intro l
  induction l with
  | nil => intro c h; rw [collapseWsAux_nil] at h; simp at h
  | cons a rest ih =>
    intro c h
    rw [collapseWsAux_cons] at h
    by_cases hwa : isWsChar a = true
    · rw [if_pos hwa] at h
      rw [ite_true_bool] at h
      exact ih h
    · rw [if_neg hwa] at h
      cases h
      exact Bool.not_eq_true _ ▸ hwa

theorem collapseWsAux_noAdj : ∀ {l : List Char} {b : Bool},
    noAdjWs (collapseWsAux b l) = true := by
  intro l
  induction l with
  | nil => intro b; rfl
  | cons a rest ih =>
    intro b
    rw [collapseWsAux_cons]
    by_cases hwa : isWsChar a = true
    · rw [if_pos hwa]
      cases b with
      | true => rw [ite_true_bool]; exact ih
      | false =>
        rw [ite_false_bool]
        refine noAdjWs_cons_of ih ?_
        intro d hd
        rw [collapseWsAux_true_head hd]
        simp
    · rw [if_neg hwa]
      refine noAdjWs_cons_of ih ?_
      intro d _
      have hwa2 : isWsChar a = false := by
        cases hx : isWsChar a with
        | true => exact absurd hx hwa
        | false => rfl
      rw [hwa2]
      rfl

theorem trimWs_head_not_ws {l : List Char} {c : Char}
    (h : (trimWs l).head? = some c) : isWsChar c = false := by
  rw [trimWs, List.head?_reverse] at h
  have hne : ((l.dropWhile isWsChar).reverse.dropWhile isWsChar) ≠ [] := by
    intro he
    rw [he] at h
    simp at h
  rw [getLast?_dropWhile hne, List.getLast?_reverse] at h
  exact dropWhile_head_false h

theorem trimWs_last_not_ws {l : List Char} {c : Char}
    (h : (trimWs l).getLast? = some c) : isWsChar c = false := by
  rw [trimWs, List.getLast?_reverse] at h
  exact dropWhile_head_false h

theorem trimWs_id {l : List Char}
    (hh : ∀ c, l.head? = some c → isWsChar c = false)
    (hl : ∀ c, l.getLast? = some c → isWsChar c = false) : trimWs l = l := by
  rw [trimWs, dropWhile_id_of_head hh,
    dropWhile_id_of_head (fun c hc => hl c ((List.head?_reverse l) ▸ hc))]
  exact List.reverse_reverse l

theorem trimWs_mem {l : List Char} {c : Char} (h : c ∈ trimWs l) : c ∈ l := by
  rw [trimWs] at h
  rw [List.mem_reverse] at h
  have h2 := mem_dropWhileCh h
  rw [List.mem_reverse] at h2
  exact mem_dropWhileCh h2

theorem stripTrackNumber_mem {l : List Char} {c : Char}
    (h : c ∈ stripTrackNumber l) : c ∈ l := by
  rw [stripTrackNumber] at h
  by_cases hs : startsWithTrackNum l = true
  · rw [if_pos hs] at h
    exact mem_dropWhileCh (mem_dropWhileCh h)
  · rw [if_neg hs] at h
    exact h

theorem stripTrackNumber_id {l : List Char} (h : startsWithTrackNum l = false) :
    stripTrackNumber l = l := by
  rw [stripTrackNumber, if_neg]
  simp [h]

theorem collapse_id_strong : ∀ {l : List Char},
    (∀ c ∈ l, isWsChar c = true → c = ' ') → noAdjWs l = true →
    (collapseWsAux false l = l ∧
      ((∀ c, l.head? = some c → isWsChar c = false) → collapseWsAux true l = l)) := by
  intro l
  induction l with
  | nil => intro _ _; exact ⟨rfl, fun _ => rfl⟩
  | cons a rest ih =>
    intro h1 h2
    have ihr := ih (fun c hc => h1 c (List.mem_cons_of_mem _ hc)) (noAdjWs_tail h2)
    constructor
    · rw [collapseWsAux_cons]
      by_cases hwa : isWsChar a = true
      · rw [if_pos hwa]
        rw [ite_false_bool]
        have ha : a = ' ' := h1 a (List.mem_cons_self _ _) hwa
        have hrest : collapseWsAux true rest = rest := by
          apply ihr.2
          intro c hc
          cases rest with
          | nil => simp at hc
          | cons d m =>
            cases hc
            have hp := noAdjWs_pair h2
            rw [hwa] at hp
            simpa using hp
        rw [hrest, ha]
      · rw [if_neg hwa, ihr.1]
    · intro hh
      rw [collapseWsAux_cons]
      have hwa : isWsChar a = false := hh a rfl
      rw [hwa, ihr.1]
      simp

theorem collapseWs_mem {l : List Char} {c : Char} (h : c ∈ collapseWs l) :
    c ∈ l ∨ c = ' ' := collapseWsAux_mem h

/-! ### Characterization of `cleanList` output and second-pass identity -/

theorem cleanList_chars {l : List Char} {c : Char} (h : c ∈ cleanList l) :
    c = ' ' ∨ ∃ d, d ∈ l ∧ c = lowerChar (punctToSpace d) := by
  rw [cleanList] at h
  rcases List.mem_map.mp h with ⟨e, he, hce⟩
  have he2 : e ∈ collapseWs ((stripTrackNumber l).map punctToSpace) := trimWs_mem he
  rcases collapseWs_mem he2 with h3 | h3
  · rcases List.mem_map.mp h3 with ⟨d, hd, hpd⟩
    exact Or.inr ⟨d, stripTrackNumber_mem hd, by rw [← hce, ← hpd]⟩
  · left
    rw [← hce, h3]
    decide

theorem cleanList_ws_space {l : List Char} {c : Char} (h : c ∈ cleanList l)
    (hw : isWsChar c = true) : c = ' ' := by
  rw [cleanList] at h
  rcases List.mem_map.mp h with ⟨e, he, hce⟩
  have hwe : isWsChar e = true := by
    rw [← hce] at hw
    exact isWsChar_lowerChar_rev hw
  have he2 : e ∈ collapseWs ((stripTrackNumber l).map punctToSpace) := trimWs_mem he
  have hes : e = ' ' := collapseWsAux_ws_space he2 hwe
  rw [← hce, hes]
  decide

theorem cleanList_no_punct {l : List Char} {c : Char} (h : c ∈ cleanList l) :
    isPunctChar c = false := by
  rcases cleanList_chars h with h1 | ⟨d, _, h2⟩
  · rw [h1]; decide
  · rw [h2]; exact isPunctChar_lowerChar (isPunctChar_punctToSpace d)

theorem cleanList_no_upper {l : List Char} {c : Char} (h : c ∈ cleanList l) :
    isUpperAscii c = false := by
  rw [cleanList] at h
  rcases List.mem_map.mp h with ⟨e, _, hce⟩
  rw [← hce]
  exact isUpperAscii_lowerChar e

theorem cleanList_no_paren {l : List Char} {c : Char}
    (hl : ∀ d ∈ l, isParenChar d = false) (h : c ∈ cleanList l) :
    isParenChar c = false := by
  rcases cleanList_chars h with h1 | ⟨d, hd, h2⟩
  · rw [h1]; decide
  · rw [h2]; exact isParenChar_lowerChar (isParenChar_punctToSpace (hl d hd))

theorem cleanList_noAdj (l : List Char) : noAdjWs (cleanList l) = true := by
  rw [cleanList]
  apply noAdjWs_map_lower
  rw [trimWs]
  apply noAdjWs_reverse
  apply noAdjWs_dropWhile
  apply noAdjWs_reverse
  apply noAdjWs_dropWhile
  exact collapseWsAux_noAdj

theorem cleanList_head_not_ws {l : List Char} {c : Char}
    (h : (cleanList l).head? = some c) : isWsChar c = false := by
  rw [cleanList, List.head?_map] at h
  cases he : (trimWs (collapseWs ((stripTrackNumber l).map punctToSpace))).head? with
  | none => rw [he] at h; simp at h
  | some e =>
    rw [he] at h
    simp only [Option.map_some'] at h
    cases h
    exact isWsChar_lowerChar (trimWs_head_not_ws he)

theorem cleanList_last_not_ws {l : List Char} {c : Char}
    (h : (cleanList l).getLast? = some c) : isWsChar c = false := by
  rw [cleanList, List.getLast?_map] at h
  cases he : (trimWs (collapseWs ((stripTrackNumber l).map punctToSpace))).getLast? with
  | none => rw [he] at h; simp at h
  | some e =>
    rw [he] at h
    simp only [Option.map_some'] at h
    cases h
    exact isWsChar_lowerChar (trimWs_last_not_ws he)

/-- A character list already in cleaned form (as produced by `cleanList`)
is a fixed point of `cleanList`, provided it does not begin with a
track-number-like prefix (which the track-number rule would strip
again). -/
theorem cleanList_id {l : List Char}
    (h1 : ∀ c ∈ l, isPunctChar c = false)
    (h2 : ∀ c ∈ l, isUpperAscii c = false)
    (h3 : ∀ c ∈ l, isWsChar c = true → c = ' ')
    (h4 : noAdjWs l = true)
    (h5 : ∀ c, l.head? = some c → isWsChar c = false)
    (h6 : ∀ c, l.getLast? = some c → isWsChar c = false)
    (h7 : startsWithTrackNum l = false) :
    cleanList l = l := by
  rw [cleanList, stripTrackNumber_id h7,
    map_id_of_fixed (fun c hc => punctToSpace_eq_of_not (h1 c hc))]
  have hcol : collapseWs l = l := (collapse_id_strong h3 h4).1
  rw [hcol, trimWs_id h5 h6]
  exact map_id_of_fixed (fun c hc => lowerChar_id_of_not_upper (h2 c hc))

/-- `cleanList` applied to its own output is the identity away from the
track-number corner case. -/
theorem cleanList_idem {l : List Char}
    (h : startsWithTrackNum (cleanList l) = false) :
    cleanList (cleanList l) = cleanList l :=
  cleanList_id
    (fun _ hc => cleanList_no_punct hc)
    (fun _ hc => cleanList_no_upper hc)
    (fun _ hc hw => cleanList_ws_space hc hw)
    (cleanList_noAdj l)
    (fun _ hc => cleanList_head_not_ws hc)
    (fun _ hc => cleanList_last_not_ws hc)
    h

/-! ### `removeFeat` is the identity when no suffix matches the clause -/

theorem removeFeatAux_id : ∀ (n : Nat) {l : List Char},
    (∀ t ∈ l.tails, tryFeat t = none) → removeFeatAux n l = l := by
  intro n
  induction n with
  | zero =>
    intro l _
    cases l with
    | nil => rfl
    | cons a rest => rfl
  | succ m ih =>
    intro l h
    cases l with
    | nil => rfl
    | cons a rest =>
      have hhead : tryFeat (a :: rest) = none := by
        apply h
        rw [List.tails_cons]
        exact List.mem_cons_self _ _
      show (match tryFeat (a :: rest) with
        | some suffix => removeFeatAux m suffix
        | none => a :: removeFeatAux m rest) = a :: rest
      rw [hhead]
      have : removeFeatAux m rest = rest := by
        apply ih
        intro t ht
        apply h
        rw [List.tails_cons]
        exact List.mem_cons_of_mem _ ht
      rw [this]

theorem removeFeat_id {l : List Char} (h : hasFeatClause l = false) :
    removeFeat l = l := by
  rw [removeFeat]
  apply removeFeatAux_id
  intro t ht
  rw [hasFeatClause, List.any_eq_false] at h
  have := h t ht
  cases he : tryFeat t with
  | none => rfl
  | some s => rw [he] at this; simp at this

/-! ### Conditional idempotence of the two cleaning transforms -/

theorem clean_string_cond_idem {s : String}
    (h : startsWithTrackNum (clean_string s).data = false) :
    clean_string (clean_string s) = clean_string s := by
  show String.mk (cleanList (cleanList s.data)) = String.mk (cleanList s.data)
  rw [cleanList_idem h]

theorem clean_title_cond_idem {s : String}
    (h1 : startsWithTrackNum (clean_title s).data = false)
    (h2 : hasFeatClause (clean_title s).data = false) :
    clean_title (clean_title s) = clean_title s := by
  show String.mk (cleanList (((removeFeat (clean_title s).data).map parenToSpace))) =
    clean_title s
  rw [removeFeat_id h2]
  have hnp : ∀ d ∈ (clean_title s).data, isParenChar d = false := by
    intro d hd
    have hd2 : d ∈ cleanList ((removeFeat s.data).map parenToSpace) := hd
    apply cleanList_no_paren ?_ hd2
    intro e he
    rcases List.mem_map.mp he with ⟨f, _, hf⟩
    rw [← hf]
    exact isParenChar_parenToSpace f
  rw [map_id_of_fixed (fun c hc => by
    rw [parenToSpace]
    rw [if_neg]
    simp [hnp c hc])]
  show String.mk (cleanList (cleanList ((removeFeat s.data).map parenToSpace))) =
    clean_title s
  rw [cleanList_idem h1]
  rfl

/-- Claim C2, counterexample: neither transform is idempotent.  On the
input `"&1.x"` one application yields `"1 x"` (the punctuation rule turns
`&` and `.` into spaces, creating a leading digit-plus-space); a second
application then fires the track-number rule and yields `"x"`. -/
theorem normalization_not_idempotent_cex :
    clean_string (clean_string ("&1.x")) ≠ clean_string ("&1.x") ∧
    clean_title (clean_title ("&1.x")) ≠ clean_title ("&1.x") := by
  decide

/-- Claim C2, amended: the transforms are idempotent away from the two
feedback corner cases their own rewriting can create.  `clean_string` is
idempotent on every input whose cleaned form does not start with a
track-number-like prefix (digits followed by `.`, `-` or white space);
`clean_title` is idempotent when additionally no suffix of its output
matches the featuring-clause pattern. -/
theorem normalization_conditionally_idempotent (s : String) :
    (startsWithTrackNum (clean_string s).data = false →
      clean_string (clean_string s) = clean_string s) ∧
    (startsWithTrackNum (clean_title s).data = false →
      hasFeatClause (clean_title s).data = false →
      clean_title (clean_title s) = clean_title s) :=
  ⟨fun h => clean_string_cond_idem h,
   fun h1 h2 => clean_title_cond_idem h1 h2⟩

/-- Claim C2, amended witness: a realistic title for which both cleaned
forms satisfy the side conditions, so both transforms are idempotent on
it. -/
theorem normalization_conditionally_idempotent_witness :
    clean_string (clean_string ("Song_Name (feat. Other) [Remix]")) =
      clean_string ("Song_Name (feat. Other) [Remix]") ∧
    clean_title (clean_title ("Song_Name (feat. Other) [Remix]")) =
      clean_title ("Song_Name (feat. Other) [Remix]") :=
  ⟨(normalization_conditionally_idempotent ("Song_Name (feat. Other) [Remix]")).1
      (by decide),
   (normalization_conditionally_idempotent ("Song_Name (feat. Other) [Remix]")).2
      (by decide) (by decide)⟩

/-- Claim C1, counterexample: the claim asserts that the stripped and the
relaxed title transforms differ on some input.  In the source the bodies
of `clean_title` and `clean_title_keep_parens` are the same sequence of
operations (remove featuring clauses, turn brackets into spaces,
`clean_string`), so the two transforms are one and the same function and
no input distinguishes them. -/
theorem title_transforms_identical : clean_title = clean_title_keep_parens :=
  rfl

/-- Claim C1, amended: the two title-normalization levels are the same
transform — both remove featuring clauses and bracket delimiters while
keeping the bracketed text — so for every input the stripped title equals
the relaxed title and the stripped-level fallback query of
`get_lyrics_smart` is unreachable. -/
theorem stripped_title_always_eq_relaxed (artist title album : String) :
    get_stripped_title (normalize_metadata artist title album) =
      (normalize_metadata artist title album).title :=
  rfl

/-- Claim C4: `get_lyrics_smart` returns immediately after the
relaxed-level query when it classifies as `Found` or `PotentialMatch`
(exactly one query is issued), and when the stripped title equals the
relaxed title it issues no stripped-level query and returns `NotFound`
after a `NotFound` relaxed-level answer. -/
theorem get_lyrics_smart_short_circuit
    (query : NormalizedMetadata → SearchResult) (track : Track) :
    (∀ lyrics,
      query (normalize_metadata track.artist track.title track.album) = .Found lyrics →
      get_lyrics_smart query track =
        (.Found lyrics, [normalize_metadata track.artist track.title track.album])) ∧
    (∀ lyrics similarity,
      query (normalize_metadata track.artist track.title track.album) =
          .PotentialMatch lyrics similarity →
      get_lyrics_smart query track =
        (.PotentialMatch lyrics similarity,
          [normalize_metadata track.artist track.title track.album])) ∧
    (get_stripped_title (normalize_metadata track.artist track.title track.album) =
        (normalize_metadata track.artist track.title track.album).title →
      query (normalize_metadata track.artist track.title track.album) = .NotFound →
      get_lyrics_smart query track =
        (.NotFound, [normalize_metadata track.artist track.title track.album])) := by
  refine ⟨fun lyrics h => ?_, fun lyrics similarity h => ?_, fun heq h => ?_⟩
  · simp [get_lyrics_smart, h]
  · simp [get_lyrics_smart, h]
  · simp [get_lyrics_smart, h, heq]

/-- Claim C4, witness at concrete inputs: each of the three branches of
the short-circuit theorem instantiated with a constant query answer. -/
theorem get_lyrics_smart_short_circuit_witness :
    (get_lyrics_smart (fun _ => .Found lyricsSample) trackSample =
      (.Found lyricsSample,
        [normalize_metadata trackSample.artist trackSample.title trackSample.album])) ∧
    (get_lyrics_smart (fun _ => .PotentialMatch lyricsSample (7 / 10)) trackSample =
      (.PotentialMatch lyricsSample (7 / 10),
        [normalize_metadata trackSample.artist trackSample.title trackSample.album])) ∧
    (get_lyrics_smart (fun _ => .NotFound) trackSample =
      (.NotFound,
        [normalize_metadata trackSample.artist trackSample.title trackSample.album])) :=
  ⟨(get_lyrics_smart_short_circuit (fun _ => .Found lyricsSample) trackSample).1
      lyricsSample rfl,
   (get_lyrics_smart_short_circuit (fun _ => .PotentialMatch lyricsSample (7 / 10))
      trackSample).2.1 lyricsSample (7 / 10) rfl,
   (get_lyrics_smart_short_circuit (fun _ => .NotFound) trackSample).2.2 rfl rfl⟩

/-- Claim C3, counterexample: the claim says every session with fewer
than 5 missing sampled files is accepted, but `check_integrity` rejects a
session with an empty pending list outright, even though its (empty)
sample has 0 < 5 missing files. -/
theorem check_integrity_empty_cex :
    PersistentSession.missingCount (fun _ => true) sessionEmpty <
        INTEGRITY_CHECK_THRESHOLD ∧
      PersistentSession.check_integrity (fun _ => true) sessionEmpty = false := by
  decide

/-- Claim C3, amended: a session with a nonempty pending list is accepted
exactly when fewer than `INTEGRITY_CHECK_THRESHOLD` (5) of the sampled
pending files (the first `min(10, len)` entries) are missing, and is
rejected when at least 5 are missing; a session with an empty pending
list is always rejected. -/
theorem check_integrity_spec (fileExists : String → Bool)
    (s : PersistentSession) :
    (s.pending_files = [] →
      PersistentSession.check_integrity fileExists s = false) ∧
    (s.pending_files ≠ [] →
      (PersistentSession.check_integrity fileExists s = true ↔
        PersistentSession.missingCount fileExists s <
          INTEGRITY_CHECK_THRESHOLD)) := by
  constructor
  · intro h
    simp [PersistentSession.check_integrity, h]
  · intro h
    simp [PersistentSession.check_integrity, List.isEmpty_iff, h]

/-- Claim C3, amended witness: a one-file session whose file exists is
accepted with 0 missing; the empty session is rejected. -/
theorem check_integrity_spec_witness :
    (PersistentSession.check_integrity (fun _ => true) sessionOne = true ↔
      PersistentSession.missingCount (fun _ => true) sessionOne <
        INTEGRITY_CHECK_THRESHOLD) ∧
    PersistentSession.check_integrity (fun _ => true) sessionEmpty = false :=
  ⟨(check_integrity_spec (fun _ => true) sessionOne).2 (by decide),
   (check_integrity_spec (fun _ => true) sessionEmpty).1 rfl⟩

/-- Claim C5: `process_file` adds the fingerprint to the negative cache
exactly when the fetch ends as not-found — the catalog returned no record
(`Ok(None)`) or the record has no synced-lyrics body — and never when a
sidecar artifact is written; whenever the cache is written the logged
status is `NotFound`. -/
theorem negative_cache_add_iff
    (fetched : Except String (Option LyricsResponse)) (writeOk : Bool) :
    ((process_file_outcome fetched writeOk).cacheAdded = true ↔
      (fetched = .ok none ∨
        ∃ lyrics, fetched = .ok (some lyrics) ∧ lyrics.synced_lyrics = none)) ∧
    ((process_file_outcome fetched writeOk).written ≠ none →
      (process_file_outcome fetched writeOk).cacheAdded = false) ∧
    ((process_file_outcome fetched writeOk).cacheAdded = true →
      (process_file_outcome fetched writeOk).status = .NotFound) := by
  match fetched with
  | .ok (some lyrics) =>
    match h : lyrics.synced_lyrics with
    | some synced =>
      cases writeOk <;> simp [process_file_outcome, h]
    | none =>
      refine ⟨?_, ?_, ?_⟩ <;> simp [process_file_outcome, h]
  | .ok none => simp [process_file_outcome]
  | .error e => simp [process_file_outcome]

/-- Claim C5, witness: the catalog-miss case adds to the cache with
status `NotFound`; a successful download (synced body present, write
succeeds) does not touch the cache. -/
theorem negative_cache_add_iff_witness :
    (process_file_outcome (.ok none) true).cacheAdded = true ∧
    (process_file_outcome (.ok (some lyricsSample)) true).cacheAdded = false ∧
    (process_file_outcome (.ok none) true).status = StatusType.NotFound :=
  ⟨(negative_cache_add_iff (.ok none) true).1.mpr (Or.inl rfl),
   by
    have h := (negative_cache_add_iff (.ok (some lyricsSample)) true).2.1
    exact Bool.not_eq_true _ ▸ h (by decide),
   (negative_cache_add_iff (.ok none) true).2.2
     ((negative_cache_add_iff (.ok none) true).1.mpr (Or.inl rfl))⟩

/-- After any add of a different signature, a signature absent before is
still absent. -/
theorem is_cached_add_of_ne (c : NegativeCache) (t : Int) (f g : String)
    (hne : g ≠ f) (h : c.is_cached f = false) :
    (c.add t g).is_cached f = false := by
  simp only [NegativeCache.is_cached, NegativeCache.add, List.any_eq_false,
    decide_eq_true_eq] at h ⊢
  intro e he
  rcases List.mem_cons.mp he with rfl | hmem
  · exact hne
  · exact h e (List.mem_of_mem_filter hmem)

/-- Claim C6: negative-cache round trip.  After `add f`, `is_cached f` is
true; a fingerprint never added (any sequence of adds of other
fingerprints to a fresh store) is not cached; re-adding an existing
fingerprint is an upsert — the store keeps exactly one row for the key,
carrying the latest timestamp. -/
theorem negative_cache_round_trip :
    (∀ (c : NegativeCache) (t : Int) (f : String),
      (c.add t f).is_cached f = true) ∧
    (∀ (adds : List (String × Int)) (f : String),
      f ∉ adds.map Prod.fst →
      (adds.foldl (fun c p => c.add p.2 p.1) NegativeCache.openFresh).is_cached f
        = false) ∧
    (∀ (c : NegativeCache) (t1 t2 : Int) (f : String),
      ((c.add t1 f).add t2 f).entries.filter (fun e => e.1 = f) = [(f, t2)]) := by
  refine ⟨fun c t f => ?_, fun adds f h => ?_, fun c t1 t2 f => ?_⟩
  · simp [NegativeCache.add, NegativeCache.is_cached]
  · have main : ∀ (adds : List (String × Int)) (c : NegativeCache),
        f ∉ adds.map Prod.fst → c.is_cached f = false →
        (adds.foldl (fun c p => c.add p.2 p.1) c).is_cached f = false := by
      intro adds
      induction adds with
      | nil => intro c _ hc; simpa using hc
      | cons p rest ih =>
        intro c hmem hc
        simp only [List.map_cons, List.mem_cons] at hmem
        push_neg at hmem
        exact ih _ hmem.2 (is_cached_add_of_ne c p.2 f p.1 (fun e => hmem.1 e.symm) hc)
    exact main adds NegativeCache.openFresh h (by simp [NegativeCache.is_cached, NegativeCache.openFresh])
  · simp [NegativeCache.add, List.filter_filter]

/-- Claim C6, witness: adding "b" then "a" to a fresh store leaves "c"
uncached; adding a key makes it cached; re-adding refreshes the row. -/
theorem negative_cache_round_trip_witness :
    (NegativeCache.openFresh.add 1 "b").is_cached "b" = true ∧
    ([("b", 1), ("a", 2)].foldl (fun c p => c.add p.2 p.1)
        NegativeCache.openFresh).is_cached "c" = false ∧
    ((NegativeCache.openFresh.add 1 "b").add 2 "b").entries.filter
        (fun e => e.1 = "b") = [("b", 2)] :=
  ⟨negative_cache_round_trip.1 NegativeCache.openFresh 1 "b",
   negative_cache_round_trip.2.1 [("b", 1), ("a", 2)] "c" (by decide),
   negative_cache_round_trip.2.2 NegativeCache.openFresh 1 2 "b"⟩

set_option maxRecDepth 4000 in
/-- Claim C7: saving a session and loading it back yields the session
unchanged in every field, except that the log history is capped by the
save to its most recent `MAX_LOG_HISTORY` (500) entries, oldest evicted
first (`List.drop` removes the front, the oldest entries). -/
theorem session_round_trip (s : PersistentSession) :
    (PersistentSession.load (PersistentSession.save s)).root_path = s.root_path ∧
    (PersistentSession.load (PersistentSession.save s)).pending_files = s.pending_files ∧
    (PersistentSession.load (PersistentSession.save s)).downloaded_count = s.downloaded_count ∧
    (PersistentSession.load (PersistentSession.save s)).cached_count = s.cached_count ∧
    (PersistentSession.load (PersistentSession.save s)).existing_count = s.existing_count ∧
    (PersistentSession.load (PersistentSession.save s)).failed_count = s.failed_count ∧
    (PersistentSession.load (PersistentSession.save s)).log_history =
      s.log_history.drop (s.log_history.length - MAX_LOG_HISTORY) ∧
    (PersistentSession.load (PersistentSession.save s)).log_history.length ≤
      MAX_LOG_HISTORY := by
  unfold PersistentSession.load PersistentSession.save PersistentSession.cap_log_history
  by_cases h : s.log_history.length > MAX_LOG_HISTORY
  · rw [if_pos h]
    refine ⟨rfl, rfl, rfl, rfl, rfl, rfl, rfl, ?_⟩
    simp only [List.length_drop]
    omega
  · rw [if_neg h]
    have hz : s.log_history.length - MAX_LOG_HISTORY = 0 := by omega
    exact ⟨rfl, rfl, rfl, rfl, rfl, rfl, by rw [hz, List.drop_zero], by omega⟩

/-- Claim C8: classification boundaries of `search_with_fuzzy`.  An
average similarity exactly at the auto threshold (0.85) classifies as
`Found`; exactly at the potential floor (0.60) as `PotentialMatch`;
strictly below 0.60 as `NotFound`, the same outcome as a 404 catalog
answer. -/
theorem classification_boundaries (sim : String → String → ℚ)
    (n : NormalizedMetadata) (lyrics : LyricsResponse) :
    ((sim n.artist (lowerString lyrics.artist_name) +
        sim n.title (lowerString lyrics.track_name)) / 2 = 85 / 100 →
      search_with_fuzzy sim n (.ok lyrics) = .ok (.Found lyrics)) ∧
    ((sim n.artist (lowerString lyrics.artist_name) +
        sim n.title (lowerString lyrics.track_name)) / 2 = 6 / 10 →
      search_with_fuzzy sim n (.ok lyrics) = .ok (.PotentialMatch lyrics (6 / 10))) ∧
    ((sim n.artist (lowerString lyrics.artist_name) +
        sim n.title (lowerString lyrics.track_name)) / 2 < 6 / 10 →
      search_with_fuzzy sim n (.ok lyrics) = .ok .NotFound) ∧
    search_with_fuzzy sim n .missing = .ok .NotFound := by
  refine ⟨fun h => ?_, fun h => ?_, fun h => ?_, rfl⟩
  · rw [search_with_fuzzy]
    simp only [h]
    norm_num [SIMILARITY_THRESHOLD_AUTO]
  · rw [search_with_fuzzy]
    simp only [h]
    norm_num [SIMILARITY_THRESHOLD_AUTO, SIMILARITY_THRESHOLD_POTENTIAL]
  · rw [search_with_fuzzy]
    have h1 : ¬((sim n.artist (lowerString lyrics.artist_name) +
        sim n.title (lowerString lyrics.track_name)) / 2 ≥ SIMILARITY_THRESHOLD_AUTO) := by
      rw [SIMILARITY_THRESHOLD_AUTO]
      rw [not_le]
      calc (sim n.artist (lowerString lyrics.artist_name) +
          sim n.title (lowerString lyrics.track_name)) / 2 < 6 / 10 := h
        _ < 85 / 100 := by norm_num
    have h2 : ¬((sim n.artist (lowerString lyrics.artist_name) +
        sim n.title (lowerString lyrics.track_name)) / 2 ≥ SIMILARITY_THRESHOLD_POTENTIAL) := by
      rw [SIMILARITY_THRESHOLD_POTENTIAL, not_le]
      exact h
    simp only [h1, h2, if_false]

/-- Claim C8, witness: constant similarity functions realizing an average
of exactly 0.85, exactly 0.60, and 0.50. -/
theorem classification_boundaries_witness :
    search_with_fuzzy (fun _ _ => 85 / 100) (normalize_metadata "a" "t" "al")
        (.ok lyricsSample) = .ok (.Found lyricsSample) ∧
    search_with_fuzzy (fun _ _ => 6 / 10) (normalize_metadata "a" "t" "al")
        (.ok lyricsSample) = .ok (.PotentialMatch lyricsSample (6 / 10)) ∧
    search_with_fuzzy (fun _ _ => 1 / 2) (normalize_metadata "a" "t" "al")
        (.ok lyricsSample) = .ok .NotFound ∧
    search_with_fuzzy (fun _ _ => 1 / 2) (normalize_metadata "a" "t" "al")
        .missing = .ok .NotFound :=
  ⟨(classification_boundaries (fun _ _ => 85 / 100) (normalize_metadata "a" "t" "al")
      lyricsSample).1 (by norm_num),
   (classification_boundaries (fun _ _ => 6 / 10) (normalize_metadata "a" "t" "al")
      lyricsSample).2.1 (by norm_num),
   (classification_boundaries (fun _ _ => 1 / 2) (normalize_metadata "a" "t" "al")
      lyricsSample).2.2.1 (by norm_num),
   (classification_boundaries (fun _ _ => 1 / 2) (normalize_metadata "a" "t" "al")
      lyricsSample).2.2.2⟩

/-- Claim C9: fingerprinting is deterministic — two signatures that agree
on artist, title, album and duration have equal hashes.  The embedding of
`generate_hash` is a pure function of the four fields (canonical JSON
serialization followed by SHA-256), so no ambient state can influence the
result. -/
theorem generate_hash_deterministic (s1 s2 : TrackSignature)
    (ha : s1.artist = s2.artist) (ht : s1.title = s2.title)
    (hal : s1.album = s2.album) (hd : s1.duration_sec = s2.duration_sec) :
    s1.generate_hash = s2.generate_hash := by
  cases s1
  cases s2
  simp only at ha ht hal hd
  subst ha ht hal hd
  rfl

/-- Claim C9, witness: two identical concrete signatures. -/
theorem generate_hash_deterministic_witness :
    TrackSignature.generate_hash
        ⟨"50 Cent", "P.I.M.P.", some "Get Rich or Die Tryin", 249⟩ =
      TrackSignature.generate_hash
        ⟨"50 Cent", "P.I.M.P.", some "Get Rich or Die Tryin", 249⟩ :=
  generate_hash_deterministic
    ⟨"50 Cent", "P.I.M.P.", some "Get Rich or Die Tryin", 249⟩
    ⟨"50 Cent", "P.I.M.P.", some "Get Rich or Die Tryin", 249⟩
    rfl rfl rfl rfl

/-- Claim C10: a `PotentialMatch` outcome is handled exactly like `Found`
at the worker level.  `get_lyrics` maps both to `Some(lyrics)`, so
`process_file` takes the same branch for both: the same sidecar artifact
is written (the synced body) rather than the ambiguous match being
rejected or flagged. -/
theorem potential_match_like_found
    (query1 query2 : NormalizedMetadata → SearchResult) (track : Track)
    (lyrics : LyricsResponse) (similarity : ℚ)
    (h1 : (get_lyrics_smart query1 track).1 = .Found lyrics)
    (h2 : (get_lyrics_smart query2 track).1 = .PotentialMatch lyrics similarity) :
    get_lyrics query1 track = some lyrics ∧
    get_lyrics query2 track = some lyrics ∧
    (∀ writeOk, process_file_outcome (.ok (get_lyrics query2 track)) writeOk =
      process_file_outcome (.ok (get_lyrics query1 track)) writeOk) ∧
    (∀ synced, lyrics.synced_lyrics = some synced →
      (process_file_outcome (.ok (get_lyrics query2 track)) true).written =
        some synced ∧
      (process_file_outcome (.ok (get_lyrics query2 track)) true).status =
        StatusType.Downloaded) := by
  have g1 : get_lyrics query1 track = some lyrics := by
    rw [get_lyrics, h1]
  have g2 : get_lyrics query2 track = some lyrics := by
    rw [get_lyrics, h2]
  refine ⟨g1, g2, fun writeOk => by rw [g1, g2], fun synced hs => ?_⟩
  rw [g2]
  simp [process_file_outcome, hs]

/-- Claim C10, witness: constant `Found` and `PotentialMatch` answers for
the sample track; the ambiguous match produces the same written artifact
and `Downloaded` status as the exact match. -/
theorem potential_match_like_found_witness :
    get_lyrics (fun _ => .Found lyricsSample) trackSample = some lyricsSample ∧
    get_lyrics (fun _ => .PotentialMatch lyricsSample (7 / 10)) trackSample =
      some lyricsSample ∧
    (process_file_outcome
        (.ok (get_lyrics (fun _ => .PotentialMatch lyricsSample (7 / 10)) trackSample))
        true).written = some "[00:12.00] sample line" := by
  have h := potential_match_like_found (fun _ => .Found lyricsSample)
    (fun _ => .PotentialMatch lyricsSample (7 / 10)) trackSample lyricsSample (7 / 10)
    rfl rfl
  exact ⟨h.1, h.2.1, (h.2.2.2 "[00:12.00] sample line" rfl).1⟩

end Getlrc
